import Mathlib

/-!
Shallow embedding of the numerical core of the option-pricing repository
(`pricing.py`, `pnl.py`, `src/quant_options/implied_volatility.py`,
`src/quant_options/gbm_simulated_paths.py`) over the real numbers.

Python floats are modelled as `ℝ`; a Python `raise` is modelled as
`Except.error`; NumPy's hidden global random stream is made explicit as a
function argument `Z`; the two SciPy root finders (`newton`, `brentq`) are
external library calls and are modelled as per-quote oracle outcomes.
The Newton oracle distinguishes a returned value, an exception the
surrounding `except (RuntimeError, OverflowError)` clause catches, and an
exception it does not catch (the pricer's `ValueError` at a non-positive
secant iterate), which propagates. NumPy `float64` division by zero does not
raise: the silent `nan` it produces is modelled as an `Option ℝ` with `none`
for the non-number.
-/

open MeasureTheory Set

noncomputable section

namespace QuantOptions

/-- Error conditions surfaced by the numerical core. `invalidParameter` is the
`ValueError("Invalid input: ...")` raised by the validation `if`s;
`degenerateWeights` is the error the specification demands when the vega sum
is zero — kept in the type so that theorems can state that the code never
actually raises it (NumPy float64 division by zero is silent); `indexError` is
the `IndexError` raised by `S_t[-1]` on an empty list. -/
inductive QError where
  | invalidParameter
  | degenerateWeights
  | indexError

/-- Standard normal density `φ` (SciPy's `norm.pdf`): `exp(-x²/2)/√(2π)`. -/
def normalPDF (x : ℝ) : ℝ := (Real.sqrt (2 * Real.pi))⁻¹ * Real.exp (-(x ^ 2) / 2)

/-- Standard normal cumulative distribution `Φ` (SciPy's `norm.cdf`),
as the integral of the density over `(-∞, x]`. -/
def normalCDF (x : ℝ) : ℝ := ∫ t in Iic x, normalPDF t

/-- The `d1` term computed at `pricing.py` line 49 (and recomputed, with the
resolved volatility, at `implied_volatility.py` line 81):
`(log(S/K) + (r - q + 0.5·σ²)·T) / (σ·√T)`. -/
def d1 (S K r q T sigma : ℝ) : ℝ :=
  (Real.log (S / K) + (r - q + 0.5 * sigma ^ 2) * T) / (sigma * Real.sqrt T)

/-- The `d2` term of `pricing.py` line 50: `d1 - σ·√T`. -/
def d2 (S K r q T sigma : ℝ) : ℝ := d1 S K r q T sigma - sigma * Real.sqrt T

/-- The call value of `pricing.py` line 52:
`S·e^(-qT)·Φ(d1) - K·e^(-rT)·Φ(d2)`. -/
def callPrice (S K r q T sigma : ℝ) : ℝ :=
  S * Real.exp (-q * T) * normalCDF (d1 S K r q T sigma)
    - K * Real.exp (-r * T) * normalCDF (d2 S K r q T sigma)

/-- The put value of `pricing.py` line 53:
`K·e^(-rT)·Φ(-d2) - S·e^(-qT)·Φ(-d1)`. -/
def putPrice (S K r q T sigma : ℝ) : ℝ :=
  K * Real.exp (-r * T) * normalCDF (-d2 S K r q T sigma)
    - S * Real.exp (-q * T) * normalCDF (-d1 S K r q T sigma)

/-- `black_scholes_option_price` from `pricing.py`: validates
`T <= 0 or sigma <= 0 or S <= 0 or K <= 0` (raising `ValueError`, modelled as
`QError.invalidParameter`), then returns the closed-form pair. -/
def black_scholes_option_price (S K r q T sigma : ℝ) : Except QError (ℝ × ℝ) :=
  if T ≤ 0 ∨ sigma ≤ 0 ∨ S ≤ 0 ∨ K ≤ 0 then .error .invalidParameter
  else .ok (callPrice S K r q T sigma, putPrice S K r q T sigma)

/-- `calculate_pnl_expiry` from `pnl.py`: `S_t[-1]` raises `IndexError` on the
empty list, otherwise the undiscounted payoff minus premium. -/
def calculate_pnl_expiry (S_t : List ℝ) (K call_premium put_premium : ℝ) :
    Except QError (ℝ × ℝ) :=
  match S_t.getLast? with
  | none => .error .indexError
  | some S_T => .ok (max (S_T - K) 0 - call_premium, max (K - S_T) 0 - put_premium)

/-- `calculate_pnl_present_value` from `pnl.py` (lines 35-48): the payoff on the
final price `S_t[-1]` discounted by `exp(-r·T)`, minus the premium. There is no
parameter validation; the only failure is `IndexError` on an empty list. -/
def calculate_pnl_present_value (S_t : List ℝ) (K r T call_premium put_premium : ℝ) :
    Except QError (ℝ × ℝ) :=
  match S_t.getLast? with
  | none => .error .indexError
  | some S_T =>
      .ok (max (S_T - K) 0 * Real.exp (-r * T) - call_premium,
           max (K - S_T) 0 * Real.exp (-r * T) - put_premium)

/-- `calculate_pnl_opportunity_cost` from `pnl.py` (lines 51-64): the payoff on
the final price with the premium grown forward by `exp(r·T)`. -/
def calculate_pnl_opportunity_cost (S_t : List ℝ) (K r T call_premium put_premium : ℝ) :
    Except QError (ℝ × ℝ) :=
  match S_t.getLast? with
  | none => .error .indexError
  | some S_T =>
      .ok (max (S_T - K) 0 - call_premium * Real.exp (r * T),
           max (K - S_T) 0 - put_premium * Real.exp (r * T))

/-- One log-price increment of `gbm_simulated_paths.py` line 54:
`(r - 0.5·σ²)·dt + σ·√dt·Z`. -/
def gbm_increment (r sigma dt z : ℝ) : ℝ :=
  (r - 0.5 * sigma ^ 2) * dt + sigma * Real.sqrt dt * z

/-- One row of the price matrix of `gbm_simulated_paths.py` lines 56-62: the
cumulative sum of the first `j` increments (column 0 holds the prepended zero),
exponentiated and scaled by `S0`. -/
def gbm_row (S0 r sigma dt : ℝ) (N : ℕ) (z : ℕ → ℝ) : List ℝ :=
  (List.range (N + 1)).map fun j =>
    S0 * Real.exp (∑ k ∈ Finset.range j, gbm_increment r sigma dt (z k))

/-- The full price matrix of `gbm_stock_path` after validation: `n_paths` rows,
each with `N + 1` columns where `N = int(steps_per_year * T)` — Python's `int()`
truncates, which on the positive products admitted by the validation is the
floor. `Z i k` is the shock consumed by path `i` at step `k`: the code draws it
from the hidden global NumPy generator (`np.random.normal`, line 50), which the
embedding makes explicit as this argument. -/
def gbm_paths (S0 r sigma T : ℝ) (steps_per_year n_paths : ℕ) (Z : ℕ → ℕ → ℝ) :
    List (List ℝ) :=
  (List.range n_paths).map fun i =>
    gbm_row S0 r sigma (1 / (steps_per_year : ℝ)) ⌊(steps_per_year : ℝ) * T⌋₊ (Z i)

/-- `gbm_stock_path` from `gbm_simulated_paths.py`: validates
`S0 <= 0 or sigma <= 0 or T <= 0` (raising `ValueError`), then builds the
price matrix. Note the signature: there is no seed parameter; the randomness
enters through the ambient global generator state `Z`. -/
def gbm_stock_path (S0 r sigma T : ℝ) (steps_per_year n_paths : ℕ)
    (Z : ℕ → ℕ → ℝ) : Except QError (List (List ℝ)) :=
  if S0 ≤ 0 ∨ sigma ≤ 0 ∨ T ≤ 0 then .error .invalidParameter
  else .ok (gbm_paths S0 r sigma T steps_per_year n_paths Z)

/-- Outcome of the `scipy.optimize.newton` call of `implied_volatility.py`
line 67, an external library call modelled as an oracle.
`converged iv`: the solver returned `iv`.
`caught`: it raised `RuntimeError` (non-convergence) or `OverflowError` —
exactly the exceptions the `except (RuntimeError, OverflowError)` clause of
line 70 catches.
`uncaught`: the objective `diff` itself raised — `black_scholes_option_price`
raises `ValueError` when a secant iterate goes to `σ ≤ 0` — and that exception
is NOT in the `except` tuple, so it propagates out of
`get_implied_volatility` entirely (modelled as `QError.invalidParameter`,
the pricer's validation error). -/
inductive NewtonOutcome where
  | converged (iv : ℝ)
  | caught
  | uncaught

/-- Per-quote data consumed by `get_implied_volatility`
(`implied_volatility.py` lines 60-77), with the two SciPy root finders
abstracted as oracle outcomes. `brentqResult = some iv` means
`scipy.optimize.brentq` on `[1e-9, 5.0]` returned `iv`; `none` means it
raised `ValueError` (no sign change), which the inner `except ValueError`
clause catches. -/
structure QuoteSolve where
  strike : ℝ
  newtonResult : NewtonOutcome
  brentqResult : Option ℝ

/-- The per-quote fallback cascade of `implied_volatility.py` lines 65-77:
use the Newton result unless it raised a caught exception or returned
`iv <= 0` (re-raised as `RuntimeError`, also caught); then the brentq result;
then the `1e-9` floor. An uncaught exception from the objective propagates. -/
def solve_quote (newtonResult : NewtonOutcome) (brentqResult : Option ℝ) :
    Except QError ℝ :=
  match newtonResult with
  | .converged iv => .ok (if iv ≤ 0 then brentqResult.getD 1e-9 else iv)
  | .caught => .ok (brentqResult.getD 1e-9)
  | .uncaught => .error .invalidParameter

/-- The `for i in range(num_options)` loop of `implied_volatility.py`
lines 60-77 building `iv_list` in order: the first uncaught exception aborts
the whole call. -/
def per_quote_ivs (quotes : List QuoteSolve) : Except QError (List ℝ) :=
  match quotes with
  | [] => .ok []
  | qt :: rest =>
      match solve_quote qt.newtonResult qt.brentqResult with
      | .error e => .error e
      | .ok iv =>
          match per_quote_ivs rest with
          | .error e => .error e
          | .ok ivs => .ok (iv :: ivs)

/-- The per-quote vega weight of `implied_volatility.py` lines 81-82:
`S·e^(-qT)·φ(d1)·√T` with `d1` recomputed from the resolved volatility. -/
def vega_at (S r q T K iv : ℝ) : ℝ :=
  S * Real.exp (-q * T) * normalPDF (d1 S K r q T iv) * Real.sqrt T

/-- The aggregation of `implied_volatility.py` lines 85-86:
`sum(iv*vega) / sum(vega)`. The operands are NumPy `float64` scalars, so a
zero denominator does NOT raise: NumPy scalar division by zero emits a
`RuntimeWarning` and silently produces `nan`/`inf`. The silent non-number
result is modelled as `.ok none` (ℝ has no NaN); a nonzero denominator gives
`.ok (some mean)`. The only exception path is the uncaught `ValueError`
surfacing from the per-quote loop. -/
def get_implied_volatility (S r q T : ℝ) (quotes : List QuoteSolve) :
    Except QError (Option ℝ) :=
  match per_quote_ivs quotes with
  | .error e => .error e
  | .ok ivs =>
      .ok (if ((quotes.zip ivs).map fun p => vega_at S r q T p.1.strike p.2).sum = 0
        then none
        else some ((List.zipWith (fun iv v => iv * v) ivs
            ((quotes.zip ivs).map fun p => vega_at S r q T p.1.strike p.2)).sum
          / ((quotes.zip ivs).map fun p => vega_at S r q T p.1.strike p.2).sum))

end QuantOptions

end

namespace QuantOptions

/-- Under the documented precondition the pricer takes the non-error branch
and returns the closed-form pair. Shared helper for several claims. -/
theorem black_scholes_ok (S K r q T sigma : ℝ) (hS : 0 < S) (hK : 0 < K)
    (hT : 0 < T) (hsig : 0 < sigma) :
    black_scholes_option_price S K r q T sigma =
      .ok (callPrice S K r q T sigma, putPrice S K r q T sigma) := by
  rw [black_scholes_option_price, if_neg]
  push_neg
  exact ⟨by linarith, by linarith, by linarith, by linarith⟩

/-- Claim C2: `black_scholes_option_price` fails with `InvalidParameter` iff the
precondition `S>0 ∧ K>0 ∧ T>0 ∧ σ>0` is violated; under the precondition it
returns the closed-form call and put values. -/
theorem black_scholes_error_iff (S K r q T sigma : ℝ) :
    (black_scholes_option_price S K r q T sigma = .error .invalidParameter ↔
      ¬(0 < S ∧ 0 < K ∧ 0 < T ∧ 0 < sigma)) ∧
    (0 < S → 0 < K → 0 < T → 0 < sigma →
      black_scholes_option_price S K r q T sigma =
        .ok (callPrice S K r q T sigma, putPrice S K r q T sigma)) := by
  constructor
  · unfold black_scholes_option_price
    by_cases h : T ≤ 0 ∨ sigma ≤ 0 ∨ S ≤ 0 ∨ K ≤ 0
    · rw [if_pos h]
      simp only [true_iff]
      intro hpos
      rcases h with h | h | h | h <;> linarith [hpos.1, hpos.2.1, hpos.2.2.1, hpos.2.2.2]
    · rw [if_neg h]
      push_neg at h
      simp only [false_iff, not_not, reduceCtorEq]
      exact ⟨by linarith [h.2.2.1], by linarith [h.2.2.2], by linarith [h.1], by linarith [h.2.1]⟩
  · exact fun hS hK hT hs => black_scholes_ok S K r q T sigma hS hK hT hs

/-- Witness for C2 at `S = K = T = σ = 1`, `r = q = 0`. -/
theorem black_scholes_error_iff_witness :
    black_scholes_option_price 1 1 0 0 1 1 =
      .ok (callPrice 1 1 0 0 1 1, putPrice 1 1 0 0 1 1) :=
  (black_scholes_error_iff 1 1 0 0 1 1).2 one_pos one_pos one_pos one_pos

/-- The standard normal density is strictly positive everywhere. -/
theorem normalPDF_pos (x : ℝ) : 0 < normalPDF x :=
  mul_pos (inv_pos.mpr (Real.sqrt_pos.mpr Real.two_pi_pos)) (Real.exp_pos _)

/-- The density rewritten in the `exp(-b·x²)` shape of the Gaussian-integral
lemmas. -/
theorem normalPDF_eq_gauss (x : ℝ) :
    normalPDF x = (Real.sqrt (2 * Real.pi))⁻¹ * Real.exp (-(1 / 2 : ℝ) * x ^ 2) := by
  rw [normalPDF]
  congr 1
  ring_nf

/-- The standard normal density is even. -/
theorem normalPDF_neg (x : ℝ) : normalPDF (-x) = normalPDF x := by
  simp [normalPDF, neg_sq]

/-- The standard normal density is integrable over the line. -/
theorem integrable_normalPDF : Integrable normalPDF := by
  have heq : normalPDF =
      fun x => (Real.sqrt (2 * Real.pi))⁻¹ * Real.exp (-(1 / 2 : ℝ) * x ^ 2) :=
    funext normalPDF_eq_gauss
  rw [heq]
  exact (integrable_exp_neg_mul_sq (by norm_num)).const_mul _

/-- The standard normal density integrates to one (Gaussian integral). -/
theorem integral_normalPDF : ∫ x, normalPDF x = 1 := by
  have heq : normalPDF =
      fun x => (Real.sqrt (2 * Real.pi))⁻¹ * Real.exp (-(1 / 2 : ℝ) * x ^ 2) :=
    funext normalPDF_eq_gauss
  rw [heq, integral_mul_left, integral_gaussian,
    show (Real.pi / (1 / 2)) = 2 * Real.pi by ring]
  exact inv_mul_cancel₀ (ne_of_gt (Real.sqrt_pos.mpr Real.two_pi_pos))

/-- The reflection identity `Φ(x) + Φ(-x) = 1` for the normal CDF. -/
theorem normalCDF_add_neg (x : ℝ) : normalCDF x + normalCDF (-x) = 1 := by
  have h1 : normalCDF x = ∫ t in Ioi (-x), normalPDF t := by
    calc normalCDF x = ∫ t in Iic x, normalPDF (-t) := by
          rw [normalCDF]
          simp only [normalPDF_neg]
      _ = ∫ t in Ioi (-x), normalPDF t := integral_comp_neg_Iic x normalPDF
  have h2 : normalCDF (-x) = ∫ t in Iic (-x), normalPDF t := rfl
  rw [h1, h2, add_comm,
    intervalIntegral.integral_Iic_add_Ioi integrable_normalPDF.integrableOn
      integrable_normalPDF.integrableOn]
  exact integral_normalPDF

/-- Claim C1: for every input satisfying the precondition, the pair returned by
`black_scholes_option_price` satisfies put-call parity exactly over the reals:
`callPrice - putPrice = S·e^(-qT) - K·e^(-rT)` (the floating-point statement is
the same identity within `1e-9` relative tolerance; over ℝ it is exact since
`Φ(d) + Φ(-d) = 1`). -/
theorem put_call_parity (S K r q T sigma : ℝ) (hS : 0 < S) (hK : 0 < K)
    (hT : 0 < T) (hsig : 0 < sigma) :
    black_scholes_option_price S K r q T sigma =
      .ok (callPrice S K r q T sigma, putPrice S K r q T sigma) ∧
    callPrice S K r q T sigma - putPrice S K r q T sigma =
      S * Real.exp (-q * T) - K * Real.exp (-r * T) := by
  refine ⟨black_scholes_ok S K r q T sigma hS hK hT hsig, ?_⟩
  have h1 := normalCDF_add_neg (d1 S K r q T sigma)
  have h2 := normalCDF_add_neg (d2 S K r q T sigma)
  unfold callPrice putPrice
  linear_combination (S * Real.exp (-q * T)) * h1 - (K * Real.exp (-r * T)) * h2

/-- Witness for C1 at `S = K = T = σ = 1`, `r = q = 0`. -/
theorem put_call_parity_witness :
    black_scholes_option_price 1 1 0 0 1 1 =
      .ok (callPrice 1 1 0 0 1 1, putPrice 1 1 0 0 1 1) ∧
    callPrice 1 1 0 0 1 1 - putPrice 1 1 0 0 1 1 =
      1 * Real.exp (-0 * 1) - 1 * Real.exp (-0 * 1) :=
  put_call_parity 1 1 0 0 1 1 one_pos one_pos one_pos one_pos

/-- Every error produced by the per-quote cascade is the pricer's
`invalidParameter` (the uncaught `ValueError`); no other exception exists on
that path. -/
theorem solve_quote_error_eq (nr : NewtonOutcome) (br : Option ℝ) (e : QError)
    (h : solve_quote nr br = .error e) : e = QError.invalidParameter := by
  cases nr with
  | converged iv => simp [solve_quote] at h
  | caught => simp [solve_quote] at h
  | uncaught =>
      simp [solve_quote] at h
      exact h.symm

/-- An error escaping the quote loop is the pricer's `invalidParameter`. -/
theorem per_quote_ivs_error_eq (quotes : List QuoteSolve) (e : QError)
    (h : per_quote_ivs quotes = .error e) : e = QError.invalidParameter := by
  induction quotes with
  | nil => simp [per_quote_ivs] at h
  | cons qt rest ih =>
      rw [per_quote_ivs] at h
      cases hq : solve_quote qt.newtonResult qt.brentqResult with
      | error e2 =>
          rw [hq] at h
          simp only [Except.error.injEq] at h
          subst h
          exact solve_quote_error_eq _ _ _ hq
      | ok iv =>
          rw [hq] at h
          cases hr : per_quote_ivs rest with
          | error e3 =>
              rw [hr] at h
              simp only [Except.error.injEq] at h
              subst h
              exact ih hr
          | ok ivs =>
              rw [hr] at h
              simp at h

/-- Evaluation of the aggregation when the per-quote loop aborted. -/
theorem get_implied_volatility_error (S r q T : ℝ) (quotes : List QuoteSolve)
    (e : QError) (h : per_quote_ivs quotes = .error e) :
    get_implied_volatility S r q T quotes = .error e := by
  rw [get_implied_volatility, h]

/-- Evaluation of the aggregation when the per-quote loop completed. -/
theorem get_implied_volatility_ok (S r q T : ℝ) (quotes : List QuoteSolve)
    (ivs : List ℝ) (h : per_quote_ivs quotes = .ok ivs) :
    get_implied_volatility S r q T quotes =
      .ok (if ((quotes.zip ivs).map fun p => vega_at S r q T p.1.strike p.2).sum = 0
        then none
        else some ((List.zipWith (fun iv v => iv * v) ivs
            ((quotes.zip ivs).map fun p => vega_at S r q T p.1.strike p.2)).sum
          / ((quotes.zip ivs).map fun p => vega_at S r q T p.1.strike p.2).sum)) := by
  rw [get_implied_volatility, h]

/-- Claim C4 (code bug): the claim demands a surfaced `DegenerateWeights`
failure whenever the vega denominator is zero, but the source's operands are
NumPy `float64` scalars whose division by zero is silent (a `RuntimeWarning`
and `nan`, never an exception). The embedding proves the actual behaviour:
`get_implied_volatility` never returns `.error .degenerateWeights`, and a run
whose per-quote loop completes with a zero vega sum returns the silent
non-number `.ok none`. -/
theorem implied_vol_silent_nan (S r q T : ℝ) (quotes : List QuoteSolve) :
    (get_implied_volatility S r q T quotes ≠ .error .degenerateWeights) ∧
    (get_implied_volatility S r q T quotes = .ok none ↔
      ∃ ivs, per_quote_ivs quotes = .ok ivs ∧
        ((quotes.zip ivs).map fun p => vega_at S r q T p.1.strike p.2).sum = 0) := by
  constructor
  · cases h : per_quote_ivs quotes with
    | error e =>
        rw [get_implied_volatility_error S r q T quotes e h]
        have he := per_quote_ivs_error_eq quotes e h
        subst he
        simp
    | ok ivs =>
        rw [get_implied_volatility_ok S r q T quotes ivs h]
        simp
  · constructor
    · intro hx
      cases h : per_quote_ivs quotes with
      | error e =>
          rw [get_implied_volatility_error S r q T quotes e h] at hx
          exact absurd hx (by simp)
      | ok ivs =>
          rw [get_implied_volatility_ok S r q T quotes ivs h] at hx
          by_cases hz :
              ((quotes.zip ivs).map fun p => vega_at S r q T p.1.strike p.2).sum = 0
          · exact ⟨ivs, rfl, hz⟩
          · rw [if_neg hz] at hx
            simp at hx
    · rintro ⟨ivs, hivs, hz⟩
      rw [get_implied_volatility_ok S r q T quotes ivs hivs, if_pos hz]

/-- Witness for C4's theorem: a single quote whose Newton call raised a caught
exception and whose brentq found no sign change, at `S = 0` (zero vega): the
loop completes with `σ = 1e-9` and the aggregation silently returns the
non-number, not an error. -/
theorem implied_vol_silent_nan_witness :
    get_implied_volatility 0 0 0 1 [⟨100, NewtonOutcome.caught, none⟩] = .ok none :=
  (implied_vol_silent_nan 0 0 0 1 [⟨100, NewtonOutcome.caught, none⟩]).2.mpr
    ⟨[1e-9], rfl, by simp [vega_at]⟩

/-- Claim C5 (code bug): `except (RuntimeError, OverflowError)` does not catch
the `ValueError` that `black_scholes_option_price` raises when a secant
iterate of `scipy.optimize.newton` goes non-positive, so that exception
propagates and aborts the whole calibration. Evaluated at the oracle state
corresponding to such a failing quote: a healthy first quote (resolved by the
bracketing fallback to `σ = 0.2`) followed by a quote whose Newton objective
raised the uncaught `ValueError` makes the whole call abort with the pricer's
error instead of degrading that quote to `σ = 1e-9`. -/
theorem implied_vol_uncaught_aborts :
    get_implied_volatility 100 0 0 1
      [⟨100, NewtonOutcome.caught, some 0.2⟩, ⟨50, NewtonOutcome.uncaught, none⟩] =
      .error .invalidParameter := rfl

/-- Counterexample to claim C6: `gbm_stock_path` has no seed parameter — its
shocks come from the hidden global NumPy generator state (made explicit here
as `Z`), so two calls with identical `(S0, r, σ, T, stepsPerYear, nPaths)` can
return different ensembles when the ambient stream differs. -/
theorem gbm_no_seed_counterexample :
    gbm_stock_path 1 0 1 1 1 1 (fun _ _ => 0) ≠
      gbm_stock_path 1 0 1 1 1 1 (fun _ _ => 1) := by
  intro h
  rw [gbm_stock_path, gbm_stock_path, if_neg (by norm_num), if_neg (by norm_num)] at h
  simp only [gbm_paths, gbm_row, gbm_increment, Except.ok.injEq, Nat.cast_one, mul_one,
    Nat.floor_one, List.range_succ, List.range_zero, List.nil_append, List.map_cons,
    List.map_nil, List.cons_append, Finset.sum_range_succ, Finset.sum_range_zero,
    List.cons.injEq, and_true, Real.exp_eq_exp, zero_add, one_mul] at h
  norm_num [Real.sqrt_one] at h

/-- Claim C6 (amended): the simulator draws its shocks from the global
generator state rather than a seed argument; with that ambient stream made
explicit, it is deterministic — two calls with identical
`(S0, r, σ, T, stepsPerYear, nPaths)` that consume the same shock values
(paths `i < nPaths`, steps `k < N`) return identical ensembles. -/
theorem gbm_deterministic (S0 r sigma T : ℝ) (steps_per_year n_paths : ℕ)
    (Z1 Z2 : ℕ → ℕ → ℝ)
    (hZ : ∀ i < n_paths, ∀ k < ⌊(steps_per_year : ℝ) * T⌋₊, Z1 i k = Z2 i k) :
    gbm_stock_path S0 r sigma T steps_per_year n_paths Z1 =
      gbm_stock_path S0 r sigma T steps_per_year n_paths Z2 := by
  unfold gbm_stock_path
  by_cases hc : S0 ≤ 0 ∨ sigma ≤ 0 ∨ T ≤ 0
  · rw [if_pos hc, if_pos hc]
  · rw [if_neg hc, if_neg hc]
    unfold gbm_paths gbm_row
    refine congrArg Except.ok (List.map_congr_left fun i hi => ?_)
    refine List.map_congr_left fun j hj => ?_
    have hsum : (∑ k ∈ Finset.range j,
        gbm_increment r sigma (1 / (steps_per_year : ℝ)) (Z1 i k)) =
        ∑ k ∈ Finset.range j,
        gbm_increment r sigma (1 / (steps_per_year : ℝ)) (Z2 i k) := by
      refine Finset.sum_congr rfl fun k hk => ?_
      rw [hZ i (List.mem_range.mp hi) k
        (by have h1 := Finset.mem_range.mp hk
            have h2 := List.mem_range.mp hj
            omega)]
    rw [hsum]

/-- Witness for the determinism statement with the two streams literally
equal. -/
theorem gbm_deterministic_witness :
    gbm_stock_path 1 0 1 1 1 1 (fun _ _ => 0) =
      gbm_stock_path 1 0 1 1 1 1 (fun _ _ => 0) :=
  gbm_deterministic 1 0 1 1 1 1 (fun _ _ => 0) (fun _ _ => 0)
    (fun _ _ _ _ => rfl)

/-- Counterexample to claim C7: the code computes `N = int(steps_per_year*T)`
(truncation), not `round`. At `stepsPerYear = 2`, `T = 4/5` the returned row
has `⌊8/5⌋ + 1 = 2` entries while the claim demands `round(8/5) + 1 = 3`. -/
theorem gbm_round_counterexample :
    (gbm_stock_path 1 0 1 (4 / 5) 2 1 (fun _ _ => 0)).map
      (fun rows => rows.map List.length) = .ok [2] ∧
    round ((2 : ℝ) * (4 / 5)) + 1 = 3 := by
  constructor
  · have hfloor : ⌊(2 : ℝ) * (4 / 5)⌋₊ = 1 := by
      rw [Nat.floor_eq_iff (by norm_num)]
      norm_num
    rw [gbm_stock_path, if_neg (by norm_num)]
    simp [gbm_paths, gbm_row, Except.map, hfloor]
  · have h : round ((2 : ℝ) * (4 / 5)) = 2 := by
      rw [round_eq, show ((2 : ℝ) * (4 / 5) + 1 / 2) = 21 / 10 by norm_num,
        Int.floor_eq_iff]
      norm_num
    rw [h]
    norm_num

/-- Claim C7 (amended): under the validation `S0>0, σ>0, T>0`,
`gbm_stock_path` returns a matrix of exactly `n_paths` rows and `N + 1`
columns, where `N = int(stepsPerYear·T)` is the truncation (floor, for these
positive inputs) of `stepsPerYear·T` — not its rounding. -/
theorem gbm_shape (S0 r sigma T : ℝ) (steps_per_year n_paths : ℕ)
    (Z : ℕ → ℕ → ℝ) (hS0 : 0 < S0) (hs : 0 < sigma) (hT : 0 < T) :
    gbm_stock_path S0 r sigma T steps_per_year n_paths Z =
      .ok (gbm_paths S0 r sigma T steps_per_year n_paths Z) ∧
    (gbm_paths S0 r sigma T steps_per_year n_paths Z).length = n_paths ∧
    ∀ row ∈ gbm_paths S0 r sigma T steps_per_year n_paths Z,
      row.length = ⌊(steps_per_year : ℝ) * T⌋₊ + 1 := by
  refine ⟨?_, ?_, ?_⟩
  · rw [gbm_stock_path, if_neg]
    push_neg
    exact ⟨by linarith, by linarith, by linarith⟩
  · rw [gbm_paths, List.length_map, List.length_range]
  · intro row hrow
    obtain ⟨i, _, rfl⟩ := List.mem_map.mp hrow
    rw [gbm_row, List.length_map, List.length_range]

/-- Witness for C7 (amended) at `S0 = σ = T = 1`, one step per year, one
path. -/
theorem gbm_shape_witness :
    gbm_stock_path 1 0 1 1 1 1 (fun _ _ => 0) =
      .ok (gbm_paths 1 0 1 1 1 1 (fun _ _ => 0)) ∧
    (gbm_paths 1 0 1 1 1 1 (fun _ _ => 0)).length = 1 ∧
    ∀ row ∈ gbm_paths 1 0 1 1 1 1 (fun _ _ => 0),
      row.length = ⌊((1 : ℕ) : ℝ) * 1⌋₊ + 1 :=
  gbm_shape 1 0 1 1 1 1 (fun _ _ => 0) one_pos one_pos one_pos

/-- Claim C8: for valid input (`S0>0`, `σ>0`, `T>0`) every entry of the
returned matrix is strictly positive, and the first column of every row is
exactly `S0` (the cumulative log increment in column 0 is the prepended zero,
and `S0·exp 0 = S0` holds exactly). -/
theorem gbm_positive_entries (S0 r sigma T : ℝ) (steps_per_year n_paths : ℕ)
    (Z : ℕ → ℕ → ℝ) (hS0 : 0 < S0) (hs : 0 < sigma) (hT : 0 < T) :
    gbm_stock_path S0 r sigma T steps_per_year n_paths Z =
      .ok (gbm_paths S0 r sigma T steps_per_year n_paths Z) ∧
    (∀ row ∈ gbm_paths S0 r sigma T steps_per_year n_paths Z,
      ∀ x ∈ row, 0 < x) ∧
    (∀ row ∈ gbm_paths S0 r sigma T steps_per_year n_paths Z,
      row.head? = some S0) := by
  refine ⟨?_, ?_, ?_⟩
  · rw [gbm_stock_path, if_neg]
    push_neg
    exact ⟨by linarith, by linarith, by linarith⟩
  · intro row hrow x hx
    obtain ⟨i, _, rfl⟩ := List.mem_map.mp hrow
    rw [gbm_row] at hx
    obtain ⟨j, _, rfl⟩ := List.mem_map.mp hx
    exact mul_pos hS0 (Real.exp_pos _)
  · intro row hrow
    obtain ⟨i, _, rfl⟩ := List.mem_map.mp hrow
    rw [gbm_row, List.range_succ_eq_map, List.map_cons, List.head?_cons,
      Finset.sum_range_zero, Real.exp_zero, mul_one]

/-- Witness for C8 at `S0 = σ = T = 1`, one step per year, one path, zero
shock stream. -/
theorem gbm_positive_entries_witness :
    gbm_stock_path 1 0 1 1 1 1 (fun _ _ => 0) =
      .ok (gbm_paths 1 0 1 1 1 1 (fun _ _ => 0)) ∧
    (∀ row ∈ gbm_paths 1 0 1 1 1 1 (fun _ _ => 0), ∀ x ∈ row, 0 < x) ∧
    (∀ row ∈ gbm_paths 1 0 1 1 1 1 (fun _ _ => 0), row.head? = some 1) :=
  gbm_positive_entries 1 0 1 1 1 1 (fun _ _ => 0) one_pos one_pos one_pos

/-- Counterexample to claim C9: at `S_t = [1]`, `K = -1 ≤ 0`, `T = -1 ≤ 0`
the PnL computation does not fail with `InvalidParameter` — there is no
validation in `calculate_pnl_present_value` — it returns the ordinary payoff
formula values `(2, 0)`. -/
theorem pnl_pv_no_validation_counterexample :
    calculate_pnl_present_value [1] (-1) 0 (-1) 0 0 = .ok (2, 0) := by
  unfold calculate_pnl_present_value
  norm_num [List.getLast?]

/-- Claim C9 (amended): `calculate_pnl_present_value` performs no parameter
validation (any `K`, `T` are accepted); an empty price sequence fails with an
uncaught `IndexError` from `S_t[-1]` rather than a dedicated `EmptyInput`
error; on a non-empty sequence with last element `S_T` it returns
`callPnL = max(S_T - K, 0)·e^(-rT) - callPremium` and
`putPnL = max(K - S_T, 0)·e^(-rT) - putPremium`. -/
theorem pnl_pv_spec (S_t : List ℝ) (K r T C P : ℝ) :
    (S_t = [] → calculate_pnl_present_value S_t K r T C P = .error .indexError) ∧
    ∀ ST, S_t.getLast? = some ST →
      calculate_pnl_present_value S_t K r T C P =
        .ok (max (ST - K) 0 * Real.exp (-r * T) - C,
             max (K - ST) 0 * Real.exp (-r * T) - P) := by
  constructor
  · rintro rfl
    rfl
  · intro ST hST
    unfold calculate_pnl_present_value
    rw [hST]

/-- Witness for C9 (amended) at `S_t = [1]`, `K = 1`, `r = 0`, `T = 1`. -/
theorem pnl_pv_spec_witness :
    calculate_pnl_present_value [1] 1 0 1 0 0 =
      .ok (max ((1 : ℝ) - 1) 0 * Real.exp (-0 * 1) - 0,
           max ((1 : ℝ) - 1) 0 * Real.exp (-0 * 1) - 0) :=
  (pnl_pv_spec [1] 1 0 1 0 0).2 1 rfl

/-- Claim C10: on any non-empty price sequence the opportunity-cost PnL is the
present-value PnL scaled by `e^(rT)` in both components, and both functions
depend only on the last element of the sequence. -/
theorem pnl_oc_eq_growth_mul_pv (S_t : List ℝ) (K r T C P ST : ℝ)
    (h : S_t.getLast? = some ST) :
    calculate_pnl_present_value S_t K r T C P =
      calculate_pnl_present_value [ST] K r T C P ∧
    calculate_pnl_opportunity_cost S_t K r T C P =
      calculate_pnl_opportunity_cost [ST] K r T C P ∧
    calculate_pnl_opportunity_cost S_t K r T C P =
      (calculate_pnl_present_value S_t K r T C P).map
        fun pv => (Real.exp (r * T) * pv.1, Real.exp (r * T) * pv.2) := by
  have hexp : Real.exp (r * T) * Real.exp (-r * T) = 1 := by
    rw [← Real.exp_add]
    norm_num
  unfold calculate_pnl_present_value calculate_pnl_opportunity_cost
  rw [h]
  refine ⟨rfl, rfl, ?_⟩
  simp only [Except.map, Except.ok.injEq, Prod.mk.injEq]
  constructor
  · linear_combination (-(max (ST - K) 0)) * hexp
  · linear_combination (-(max (K - ST) 0)) * hexp

/-- The normal CDF written as a base value plus a running interval integral,
for the fundamental theorem of calculus. -/
theorem normalCDF_eq_base_add (y : ℝ) :
    normalCDF y = normalCDF 0 + ∫ t in (0 : ℝ)..y, normalPDF t := by
  have h : (∫ t in Iic y, normalPDF t) - ∫ t in Iic (0 : ℝ), normalPDF t =
      ∫ t in (0 : ℝ)..y, normalPDF t :=
    intervalIntegral.integral_Iic_sub_Iic integrable_normalPDF.integrableOn
      integrable_normalPDF.integrableOn
  rw [normalCDF, normalCDF]
  linarith [h]

/-- The standard normal density is continuous. -/
theorem continuous_normalPDF : Continuous normalPDF := by
  unfold normalPDF
  exact continuous_const.mul
    (Real.continuous_exp.comp (((continuous_pow 2).neg).div_const 2))

/-- The normal CDF differentiates to the density (fundamental theorem of
calculus applied to the running integral). -/
theorem hasDerivAt_normalCDF (x : ℝ) : HasDerivAt normalCDF (normalPDF x) x := by
  have h : HasDerivAt (fun u => ∫ t in (0 : ℝ)..u, normalPDF t) (normalPDF x) x :=
    intervalIntegral.integral_hasDerivAt_right
      integrable_normalPDF.intervalIntegrable
      (continuous_normalPDF.stronglyMeasurableAtFilter _ _)
      continuous_normalPDF.continuousAt
  have heq : normalCDF = fun u => normalCDF 0 + ∫ t in (0 : ℝ)..u, normalPDF t :=
    funext normalCDF_eq_base_add
  rw [heq]
  exact HasDerivAt.const_add (normalCDF 0) h

/-- Algebraic decomposition of the `d1` quotient into a `A·σ⁻¹ + B·σ` shape,
with `u` standing for `√T`. -/
theorem d1_decomp (L c T u s : ℝ) (hu : u * u = T) (hu0 : u ≠ 0) (hs : s ≠ 0) :
    (L + (c + 0.5 * s ^ 2) * T) / (s * u) = (L + c * T) / u * s⁻¹ + u / 2 * s := by
  subst hu
  field_simp
  ring

/-- `d1` as a function of `σ`, in closed `A·σ⁻¹ + B·σ` form. -/
theorem d1_eq (S K r q T : ℝ) (hT : 0 < T) {s : ℝ} (hs : s ≠ 0) :
    d1 S K r q T s =
      (Real.log (S / K) + (r - q) * T) / Real.sqrt T * s⁻¹ +
        Real.sqrt T / 2 * s := by
  rw [d1]
  exact d1_decomp _ _ _ _ _ (Real.mul_self_sqrt hT.le)
    (ne_of_gt (Real.sqrt_pos.mpr hT)) hs

/-- `d2` as a function of `σ`, in closed `A·σ⁻¹ - B·σ` form. -/
theorem d2_eq (S K r q T : ℝ) (hT : 0 < T) {s : ℝ} (hs : s ≠ 0) :
    d2 S K r q T s =
      (Real.log (S / K) + (r - q) * T) / Real.sqrt T * s⁻¹ -
        Real.sqrt T / 2 * s := by
  rw [d2, d1_eq S K r q T hT hs]
  ring

/-- Derivative of the elementary map `x ↦ A·x⁻¹ + B·x` away from zero. -/
theorem hasDerivAt_inv_linear (A B s : ℝ) (hs : s ≠ 0) :
    HasDerivAt (fun x : ℝ => A * x⁻¹ + B * x) (A * -(s ^ 2)⁻¹ + B) s := by
  have h1 : HasDerivAt (fun x : ℝ => x⁻¹) (-(s ^ 2)⁻¹) s := hasDerivAt_inv hs
  have h2 := h1.const_mul A
  have h3 := (hasDerivAt_id s).const_mul B
  simpa using h2.add h3

/-- Derivative of `σ ↦ d1` at a positive `σ`. -/
theorem hasDerivAt_d1 (S K r q T : ℝ) (hT : 0 < T) (s : ℝ) (hs : 0 < s) :
    HasDerivAt (fun x => d1 S K r q T x)
      ((Real.log (S / K) + (r - q) * T) / Real.sqrt T * -(s ^ 2)⁻¹ +
        Real.sqrt T / 2) s := by
  have h := hasDerivAt_inv_linear ((Real.log (S / K) + (r - q) * T) / Real.sqrt T)
    (Real.sqrt T / 2) s (ne_of_gt hs)
  refine h.congr_of_eventuallyEq ?_
  filter_upwards [eventually_ne_nhds (ne_of_gt hs)] with x hx
  exact d1_eq S K r q T hT hx

/-- Derivative of `σ ↦ d2` at a positive `σ`. -/
theorem hasDerivAt_d2 (S K r q T : ℝ) (hT : 0 < T) (s : ℝ) (hs : 0 < s) :
    HasDerivAt (fun x => d2 S K r q T x)
      ((Real.log (S / K) + (r - q) * T) / Real.sqrt T * -(s ^ 2)⁻¹ -
        Real.sqrt T / 2) s := by
  have h := hasDerivAt_inv_linear ((Real.log (S / K) + (r - q) * T) / Real.sqrt T)
    (-(Real.sqrt T / 2)) s (ne_of_gt hs)
  have h2 : HasDerivAt (fun x : ℝ =>
      (Real.log (S / K) + (r - q) * T) / Real.sqrt T * x⁻¹ +
        -(Real.sqrt T / 2) * x)
      ((Real.log (S / K) + (r - q) * T) / Real.sqrt T * -(s ^ 2)⁻¹ -
        Real.sqrt T / 2) s := by
    simpa [sub_eq_add_neg] using h
  refine h2.congr_of_eventuallyEq ?_
  filter_upwards [eventually_ne_nhds (ne_of_gt hs)] with x hx
  rw [d2_eq S K r q T hT hx]
  ring

/-- Likelihood-ratio identity between two evaluations of the density. -/
theorem normalPDF_ratio (x y : ℝ) :
    normalPDF y = normalPDF x * Real.exp ((x ^ 2 - y ^ 2) / 2) := by
  rw [normalPDF, normalPDF, mul_assoc, ← Real.exp_add]
  congr 2
  ring

/-- The discounted-forward identity `K·e^(-rT)·φ(d2) = S·e^(-qT)·φ(d1)`:
the two terms of the Black-Scholes vega coincide. -/
theorem pdf_identity (S K r q T : ℝ) (hS : 0 < S) (hK : 0 < K) (hT : 0 < T)
    (s : ℝ) (hs : s ≠ 0) :
    K * Real.exp (-r * T) * normalPDF (d2 S K r q T s) =
      S * Real.exp (-q * T) * normalPDF (d1 S K r q T s) := by
  have hsq : (d1 S K r q T s ^ 2 - d2 S K r q T s ^ 2) / 2 =
      Real.log (S / K) + (r - q) * T := by
    rw [d1_eq S K r q T hT hs, d2_eq S K r q T hT hs]
    have h1 : s⁻¹ * s = 1 := inv_mul_cancel₀ hs
    have h2 : (Real.log (S / K) + (r - q) * T) / Real.sqrt T * Real.sqrt T =
        Real.log (S / K) + (r - q) * T :=
      div_mul_cancel₀ _ (ne_of_gt (Real.sqrt_pos.mpr hT))
    nlinarith [h1, h2]
  rw [show normalPDF (d2 S K r q T s) =
      normalPDF (d1 S K r q T s) *
        Real.exp ((d1 S K r q T s ^ 2 - d2 S K r q T s ^ 2) / 2) from
    normalPDF_ratio _ _]
  rw [hsq, Real.exp_add, Real.exp_log (div_pos hS hK)]
  have hexp : Real.exp (-r * T) * Real.exp ((r - q) * T) = Real.exp (-q * T) := by
    rw [← Real.exp_add]
    congr 1
    ring
  have hKS : K * (S / K) = S := by
    field_simp
  calc K * Real.exp (-r * T) *
        (normalPDF (d1 S K r q T s) * (S / K * Real.exp ((r - q) * T)))
      = (K * (S / K)) *
          ((Real.exp (-r * T) * Real.exp ((r - q) * T)) *
            normalPDF (d1 S K r q T s)) := by ring
    _ = S * (Real.exp (-q * T) * normalPDF (d1 S K r q T s)) := by rw [hKS, hexp]
    _ = S * Real.exp (-q * T) * normalPDF (d1 S K r q T s) := by ring

/-- Derivative of the call price in `σ`: the Black-Scholes vega
`S·e^(-qT)·φ(d1)·√T`. -/
theorem hasDerivAt_callPrice (S K r q T : ℝ) (hS : 0 < S) (hK : 0 < K)
    (hT : 0 < T) (s : ℝ) (hs : 0 < s) :
    HasDerivAt (fun x => callPrice S K r q T x)
      (S * Real.exp (-q * T) * normalPDF (d1 S K r q T s) * Real.sqrt T) s := by
  have hc1 : HasDerivAt (fun x => normalCDF (d1 S K r q T x))
      (normalPDF (d1 S K r q T s) *
        ((Real.log (S / K) + (r - q) * T) / Real.sqrt T * -(s ^ 2)⁻¹ +
          Real.sqrt T / 2)) s :=
    (hasDerivAt_normalCDF _).comp s (hasDerivAt_d1 S K r q T hT s hs)
  have hc2 : HasDerivAt (fun x => normalCDF (d2 S K r q T x))
      (normalPDF (d2 S K r q T s) *
        ((Real.log (S / K) + (r - q) * T) / Real.sqrt T * -(s ^ 2)⁻¹ -
          Real.sqrt T / 2)) s :=
    (hasDerivAt_normalCDF _).comp s (hasDerivAt_d2 S K r q T hT s hs)
  have h := (hc1.const_mul (S * Real.exp (-q * T))).sub
    (hc2.const_mul (K * Real.exp (-r * T)))
  have hfun : (fun x => callPrice S K r q T x) =
      fun x => S * Real.exp (-q * T) * normalCDF (d1 S K r q T x) -
        K * Real.exp (-r * T) * normalCDF (d2 S K r q T x) := rfl
  rw [hfun]
  convert h using 1
  have hid := pdf_identity S K r q T hS hK hT s (ne_of_gt hs)
  linear_combination
    ((Real.log (S / K) + (r - q) * T) / Real.sqrt T * -(s ^ 2)⁻¹ -
      Real.sqrt T / 2) * hid

/-- The call price is strictly monotone in `σ` on `(0, ∞)` for fixed valid
market parameters: its derivative, the vega, is strictly positive there. -/
theorem callPrice_strictMonoOn (S K r q T : ℝ) (hS : 0 < S) (hK : 0 < K)
    (hT : 0 < T) :
    StrictMonoOn (fun s => callPrice S K r q T s) (Ioi (0 : ℝ)) := by
  apply strictMonoOn_of_deriv_pos (convex_Ioi 0)
  · intro x hx
    exact (hasDerivAt_callPrice S K r q T hS hK hT x (mem_Ioi.mp hx)).continuousAt.continuousWithinAt
  · intro x hx
    rw [interior_Ioi] at hx
    rw [(hasDerivAt_callPrice S K r q T hS hK hT x (mem_Ioi.mp hx)).deriv]
    exact mul_pos (mul_pos (mul_pos hS (Real.exp_pos _)) (normalPDF_pos _))
      (Real.sqrt_pos.mpr hT)

/-- Claim C3: for fixed `S>0`, `K>0`, `r`, `q`, `T>0` the call price returned by
`black_scholes_option_price` is strictly increasing in `σ`: if
`0 < σ₁ < σ₂` then the call components of the two results satisfy
`c₁ < c₂`. -/
theorem call_price_strict_mono_in_sigma (S K r q T s1 s2 : ℝ) (hS : 0 < S)
    (hK : 0 < K) (hT : 0 < T) (h1 : 0 < s1) (h12 : s1 < s2) :
    ∀ c1 p1 c2 p2, black_scholes_option_price S K r q T s1 = .ok (c1, p1) →
      black_scholes_option_price S K r q T s2 = .ok (c2, p2) → c1 < c2 := by
  intro c1 p1 c2 p2 e1 e2
  have h2 : 0 < s2 := h1.trans h12
  rw [black_scholes_ok S K r q T s1 hS hK hT h1] at e1
  rw [black_scholes_ok S K r q T s2 hS hK hT h2] at e2
  simp only [Except.ok.injEq, Prod.mk.injEq] at e1 e2
  rw [← e1.1, ← e2.1]
  exact callPrice_strictMonoOn S K r q T hS hK hT (mem_Ioi.mpr h1)
    (mem_Ioi.mpr h2) h12

/-- Witness for C3 at `S = K = T = 1`, `r = q = 0`, `σ₁ = 1 < σ₂ = 2`. -/
theorem call_price_strict_mono_witness :
    callPrice 1 1 0 0 1 1 < callPrice 1 1 0 0 1 2 :=
  call_price_strict_mono_in_sigma 1 1 0 0 1 1 2 one_pos one_pos one_pos
    one_pos one_lt_two
    (callPrice 1 1 0 0 1 1) (putPrice 1 1 0 0 1 1)
    (callPrice 1 1 0 0 1 2) (putPrice 1 1 0 0 1 2)
    (black_scholes_ok 1 1 0 0 1 1 one_pos one_pos one_pos one_pos)
    (black_scholes_ok 1 1 0 0 1 2 one_pos one_pos one_pos two_pos)

/-- Witness for C10 at `S_t = [2, 3]`, `K = 1`, `r = 1`, `T = 1`. -/
theorem pnl_oc_eq_growth_mul_pv_witness :
    calculate_pnl_present_value [2, 3] 1 1 1 0 0 =
      calculate_pnl_present_value [3] 1 1 1 0 0 ∧
    calculate_pnl_opportunity_cost [2, 3] 1 1 1 0 0 =
      calculate_pnl_opportunity_cost [3] 1 1 1 0 0 ∧
    calculate_pnl_opportunity_cost [2, 3] 1 1 1 0 0 =
      (calculate_pnl_present_value [2, 3] 1 1 1 0 0).map
        fun pv => (Real.exp (1 * 1) * pv.1, Real.exp (1 * 1) * pv.2) :=
  pnl_oc_eq_growth_mul_pv [2, 3] 1 1 1 0 0 3 rfl

end QuantOptions
